import Mathlib

/-!
# Verification of the dis-bootloader durable state store and swap engine

Shallow embedding of the bootloader sources:
* `shared/src/state.rs`   — `BootloaderState`, `BootloaderGoal`, `PageState`
* `bootloader/src/main.rs` — `run_main`, `perform_swap`, `jump_to_application`
* `bootloader/src/flash.rs` — word-programming / page-erase flash semantics

Machine words are `Nat` kept below `2^32`; flash is a word-indexed map
(one page = 1024 words of 32 bits, `PAGE_SIZE = 0x1000` bytes).  A flash
word program has NOR semantics: the stored value is the bitwise AND of the
old contents and the written value (a 1→0-only operation; attempting to
set a 0 bit back to 1 leaves it 0).
-/

namespace Boot

/-- `PAGE_SIZE / 4`: number of 32-bit words per flash page. -/
def PAGE_WORDS : Nat := 1024

/-- `BootloaderState::VALID_WORD` (0xB00210AD, "Bootload"). -/
def VALID_WORD : Nat := 0xB00210AD

/-- The erased flash word. -/
def ERASED : Nat := 0xFFFFFFFF

/-! ## CRC-32/MPEG-2 (`crc::CRC_32_MPEG_2` as used by `calculate_self_crc`) -/

/-- Polynomial 0x04C11DB7 of CRC-32/MPEG-2. -/
def crcPoly : Nat := 0x04C11DB7

/-- One bit step of the unreflected CRC-32 update. -/
def crcBit (c : Nat) : Nat :=
  if c &&& 0x80000000 = 0 then (c <<< 1) &&& 0xFFFFFFFF
  else ((c <<< 1) ^^^ crcPoly) &&& 0xFFFFFFFF

/-- Eight bit steps. -/
def crcBit8 (c : Nat) : Nat :=
  crcBit (crcBit (crcBit (crcBit (crcBit (crcBit (crcBit (crcBit c)))))))

/-- Process one byte (no reflection, as in CRC-32/MPEG-2). -/
def crcByte (c b : Nat) : Nat :=
  crcBit8 (c ^^^ ((b &&& 0xFF) <<< 24))

/-- Strictness helper: force a `Nat` to a literal before continuing.  Used so
that kernel reduction of concrete runs keeps a bounded stack; `strict n k`
is definitionally `k n` (see `strict_eq`). -/
def strict {α : Sort _} (n : Nat) (k : Nat → α) : α :=
  match n with
  | 0 => k 0
  | m + 1 => k (m + 1)

/-- Process one word (its four little-endian bytes), forcing intermediate
CRC states. -/
def crcWord (c w : Nat) : Nat :=
  strict (crcByte c (w &&& 0xFF)) fun c1 =>
  strict (crcByte c1 ((w >>> 8) &&& 0xFF)) fun c2 =>
  strict (crcByte c2 ((w >>> 16) &&& 0xFF)) fun c3 =>
  crcByte c3 ((w >>> 24) &&& 0xFF)

/-! ## The durable state buffer (`BootloaderState`) -/

/-- The RAM copy of one state page: 1024 32-bit words, indexed 0..1023. -/
def Buffer := Nat → Nat

/-- Point update of a buffer. -/
def upd (b : Buffer) (i v : Nat) : Buffer :=
  fun j => if j = i then v else b j

/-- Fuel-indexed CRC loop over buffer words: `crcLoopB b c (n+1)` processes
words `b (256-n) .. b 255`, written with forced accumulators so that
concrete instances evaluate with bounded reduction depth. -/
def crcLoopB (b : Buffer) : Nat → Nat → Nat
  | c, 0 => c
  | c, n + 1 =>
    if n = 0 then c
    else strict (crcWord c (b (256 - n))) fun c' => crcLoopB b c' n

/-- `BootloaderState::calculate_self_crc`: CRC over words
`[CRC_INDEX + 1 .. CACHED_PAGES_RANGE.start)` = indices 1..255. -/
def calcCrc (b : Buffer) : Nat :=
  crcLoopB b 0xFFFFFFFF 256

/-- `BootloaderState::is_valid`: the stored CRC word equals the computed CRC. -/
def IsValid (b : Buffer) : Prop :=
  b 0 = calcCrc b

instance (b : Buffer) : Decidable (IsValid b) := by
  unfold IsValid; infer_instance

/-- `BootloaderState::set_valid`. -/
def setValid (b : Buffer) (validity : Bool) : Buffer :=
  upd b 0 (if validity then calcCrc b else 0xFFFFFFFF)

/-- `BootloaderGoal`. -/
inductive BootloaderGoal where
  | jumpToApplication
  | startSwap
  | finishSwap
  | startTestSwap
  | finishTestSwap
deriving DecidableEq, Repr

/-- `u32::from(goal)` (the `num_enum` discriminants). -/
def goalToPrimitive : BootloaderGoal → Nat
  | .jumpToApplication => 0
  | .startSwap => 1
  | .finishSwap => 2
  | .startTestSwap => 3
  | .finishTestSwap => 4

/-- `BootloaderGoal::try_from(u32)`: discriminant 0 with alternative
0xFFFF_FFFF decodes `JumpToApplication`; 1..4 decode the other variants;
anything else fails (the `unwrap` in `goal()` panics). -/
def goalFromPrimitive (v : Nat) : Option BootloaderGoal :=
  if v = 0 ∨ v = 0xFFFFFFFF then some .jumpToApplication
  else if v = 1 then some .startSwap
  else if v = 2 then some .finishSwap
  else if v = 3 then some .startTestSwap
  else if v = 4 then some .finishTestSwap
  else none

/-- `BootloaderState::goal`: decode word[GOAL_INDEX]; `none` is the panic of
the `unwrap`. -/
def goalOf (b : Buffer) : Option BootloaderGoal :=
  goalFromPrimitive (b 1)

/-- `BootloaderState::set_goal`: record validity, write the goal word, and
re-validate (recompute the CRC word) only if the state was valid before. -/
def setGoal (b : Buffer) (g : BootloaderGoal) : Buffer :=
  let wasValid := IsValid b
  let b1 := upd b 1 (goalToPrimitive g)
  if wasValid then setValid b1 true else b1

/-- `PageState`. -/
inductive PageState where
  | original
  | inScratch (scratch_page : Nat)
  | inScratchOverwritten (scratch_page : Nat)
  | swapped
deriving DecidableEq, Repr

/-- The triple written by `set_page_state` for a given state. -/
def encodePS : PageState → Nat × Nat × Nat
  | .original => (0xFFFFFFFF, 0xFFFFFFFF, 0xFFFFFFFF)
  | .inScratch s => (s, 0xFFFFFFFF, 0xFFFFFFFF)
  | .inScratchOverwritten s => (s, VALID_WORD, 0xFFFFFFFF)
  | .swapped => (VALID_WORD, VALID_WORD, VALID_WORD)

/-- The `match (cached_value, copied_value, finished_value)` of
`get_page_state`, with the arms in source order; `none` is the
`unreachable!` panic on an invalid triple. -/
def decodePS (cached copied finished : Nat) : Option PageState :=
  if copied = 0xFFFFFFFF ∧ finished = 0xFFFFFFFF then
    if cached = 0xFFFFFFFF then some .original
    else some (.inScratch cached)
  else if copied = VALID_WORD ∧ finished = 0xFFFFFFFF then
    some (.inScratchOverwritten cached)
  else if finished = VALID_WORD then
    some .swapped
  else none

/-- `BootloaderState::get_page_state`: decode the triple
(cached, copied, finished) at word indices (256+p, 512+p, 768+p). -/
def getPageState (b : Buffer) (page : Nat) : Option PageState :=
  decodePS (b (256 + page)) (b (512 + page)) (b (768 + page))

/-- `BootloaderState::set_page_state`. -/
def setPageState (b : Buffer) (page : Nat) (st : PageState) : Buffer :=
  let t := encodePS st
  upd (upd (upd b (256 + page) t.1) (512 + page) t.2.1) (768 + page) t.2.2

/-! ## Flash (`bootloader/src/flash.rs`)

Flash is a word-indexed store; a page is 1024 consecutive words.  The
atomic operations observable by a crash are a whole-page erase and a single
32-bit word program.  A word program has NOR semantics: the resulting word
is `old AND written` (a program can only clear bits; an attempted 0→1
leaves the bit at 0). -/

/-- The whole flash, word-indexed (word index = byte address / 4). -/
def Flash := Nat → Nat

/-- One atomic flash operation. -/
inductive FlashOp where
  | erase (page : Nat)
  | write (addr val : Nat)
deriving DecidableEq, Repr

/-- Apply one atomic operation. -/
def applyOp (f : Flash) : FlashOp → Flash
  | .erase p => fun i => if p * 1024 ≤ i ∧ i < (p + 1) * 1024 then 0xFFFFFFFF else f i
  | .write a v => fun i => if i = a then f a &&& v else f i

/-- Apply a sequence of atomic operations, oldest first. -/
def applyOps (ops : List FlashOp) (f : Flash) : Flash :=
  ops.foldl applyOp f

/-- The words of page `pg` as a buffer-shaped view. -/
def pageRead (f : Flash) (pg : Nat) : Nat → Nat :=
  fun i => f (pg * 1024 + i)

/-- `Flash::program_page`: the sequence of word writes issued for
programming `data` (a 1024-word page image) at word address `base`;
only words that differ from the current flash contents are written,
in ascending address order. -/
def programOps (f : Flash) (base : Nat) (data : Nat → Nat) : List FlashOp :=
  (List.range 1024).filterMap fun j =>
    if f (base + j) = data j then none else some (.write (base + j) (data j))

/-- Force a `FlashOp` to literal form before continuing (definitionally the
identity, see `strictOp_eq`). -/
def strictOp {α : Sort _} (op : FlashOp) (k : FlashOp → α) : α :=
  match op with
  | .erase p => strict p fun p' => k (.erase p')
  | .write a v => strict a fun a' => strict v fun v' => k (.write a' v')

/-- Force a list of `FlashOp`s to literal form before continuing
(definitionally the identity, see `withOps_eq`). -/
def withOps {α : Sort _} : List FlashOp → (List FlashOp → α) → α
  | [], k => k []
  | op :: rest, k => strictOp op fun op' => withOps rest fun r => k (op' :: r)

/-- `BootloaderState::burn_store`: program both state mirror pages with the
buffer, without erasing (word writes only for changed words).
`ss` is the page index of the first state page
(`bootloader_state_range().start / PAGE_SIZE`). -/
def burnStoreOps (f : Flash) (ss : Nat) (b : Buffer) : List FlashOp :=
  withOps (programOps f (ss * 1024) b) fun o1 =>
  withOps (programOps (applyOps o1 f) ((ss + 1) * 1024) b) fun o2 =>
  o1 ++ o2

/-- `BootloaderState::store`: erase and program the first state page, then
erase and program the second. -/
def storeOps (f : Flash) (ss : Nat) (b : Buffer) : List FlashOp :=
  withOps (programOps (applyOp f (.erase ss)) (ss * 1024) b) fun o1 =>
  let f1 := applyOps o1 (applyOp f (.erase ss))
  withOps (programOps (applyOp f1 (.erase (ss + 1))) ((ss + 1) * 1024) b) fun o2 =>
  .erase ss :: o1 ++ .erase (ss + 1) :: o2

/-! ## Region map (`shared/src/flash_addresses.rs`)

The five regions are linker-supplied constants; the swap engine only needs
the page indices below.  All are page-index views (byte address /
`PAGE_SIZE`). -/

/-- The linker-provided memory layout, as page indices:
start of the scratch region and its length in pages
(`bootloader_scratch_page_range()`), start of the two-page state region
(`bootloader_state_page_range().start`), starts of slot A and slot B
(`program_slot_a_page_range().start`, `program_slot_b_page_range().start`)
and the common page count `N` of the two slots. -/
structure Layout where
  scratchStart : Nat
  scratchLen : Nat
  stateStart : Nat
  slotAStart : Nat
  slotBStart : Nat
  nPages : Nat

/-! ## Swap engine (`perform_swap` in `bootloader/src/main.rs`)

Each arm of the inner state machine performs its flash operations, updates
the RAM state and persists it with `burn_store`.  The model returns the new
RAM buffer together with the exact sequence of atomic flash operations
issued, oldest first; `none` is a panic (`unreachable!` on an invalid or
impossible page state). -/

/-- One iteration of the inner `while !state.get_page_state(page).is_swapped()`
loop body of `perform_swap`. -/
def swapStepOps (L : Layout) (page sIdx : Nat) (b : Buffer) (f : Flash) :
    Option (Buffer × List FlashOp) :=
  match getPageState b page with
  | none => none
  | some .original =>
      -- copy the A page to the scratch page chosen round-robin
      let sp := L.scratchStart + sIdx
      withOps [.erase sp] fun o1 =>
      let f1 := applyOps o1 f
      withOps (programOps f1 (sp * 1024) (pageRead f1 (L.slotAStart + page))) fun o2 =>
      let f2 := applyOps o2 f1
      let b1 := setPageState b page (.inScratch sp)
      withOps (burnStoreOps f2 L.stateStart b1) fun o3 =>
      some (b1, o1 ++ o2 ++ o3)
  | some (.inScratch sp) =>
      -- copy the B page over the A page
      withOps [.erase (L.slotAStart + page)] fun o1 =>
      let f1 := applyOps o1 f
      withOps (programOps f1 ((L.slotAStart + page) * 1024)
        (pageRead f1 (L.slotBStart + page))) fun o2 =>
      let f2 := applyOps o2 f1
      let b1 := setPageState b page (.inScratchOverwritten sp)
      withOps (burnStoreOps f2 L.stateStart b1) fun o3 =>
      some (b1, o1 ++ o2 ++ o3)
  | some (.inScratchOverwritten sp) =>
      -- copy the scratch page over the B page
      withOps [.erase (L.slotBStart + page)] fun o1 =>
      let f1 := applyOps o1 f
      withOps (programOps f1 ((L.slotBStart + page) * 1024) (pageRead f1 sp)) fun o2 =>
      let f2 := applyOps o2 f1
      let b1 := setPageState b page .swapped
      withOps (burnStoreOps f2 L.stateStart b1) fun o3 =>
      some (b1, o1 ++ o2 ++ o3)
  | some .swapped => none

/-- The inner while loop, with fuel (three iterations always suffice,
see the progress theorem). -/
def swapPageLoopOps (L : Layout) (page sIdx : Nat) :
    Nat → Buffer → Flash → Option (Buffer × List FlashOp)
  | 0, b, _ =>
    match getPageState b page with
    | none => none
    | some .swapped => some (b, [])
    | some _ => none
  | fuel + 1, b, f =>
    match getPageState b page with
    | none => none
    | some .swapped => some (b, [])
    | some _ =>
      match swapStepOps L page sIdx b f with
      | none => none
      | some (b1, ops) =>
        match swapPageLoopOps L page sIdx fuel b1 (applyOps ops f) with
        | none => none
        | some (b2, ops2) => some (b2, ops ++ ops2)

/-- The outer `for page in 0..total_program_pages` loop of `perform_swap`,
followed by the terminal goal change and its full `store`.  `l` is the list
of remaining page indices and `sIdx` the running scratch round-robin
index. -/
def performSwapAuxOps (L : Layout) (testSwap : Bool) :
    List Nat → Nat → Buffer → Flash → Option (Buffer × List FlashOp)
  | [], _, b, f =>
      let b1 := setGoal b (if testSwap then .startSwap else .jumpToApplication)
      some (b1, storeOps f L.stateStart b1)
  | page :: rest, sIdx, b, f =>
      match swapPageLoopOps L page sIdx 3 b f with
      | none => none
      | some (b1, ops) =>
        match performSwapAuxOps L testSwap rest ((sIdx + 1) % L.scratchLen) b1
            (applyOps ops f) with
        | none => none
        | some (b2, ops2) => some (b2, ops ++ ops2)

/-- `perform_swap(test_swap, state, flash)`: the final RAM buffer and the
full sequence of atomic flash operations. -/
def performSwapOps (L : Layout) (testSwap : Bool) (b : Buffer) (f : Flash) :
    Option (Buffer × List FlashOp) :=
  performSwapAuxOps L testSwap (List.range L.nPages) 0 b f

/-- `perform_swap` as a state transformer on (RAM buffer, flash). -/
def performSwapRun (L : Layout) (testSwap : Bool) (b : Buffer) (f : Flash) :
    Option (Buffer × Flash) :=
  match performSwapOps L testSwap b f with
  | none => none
  | some (b', ops) => some (b', applyOps ops f)

/-! ## Boot dispatcher (`run_main` in `bootloader/src/main.rs`) -/

/-- `BootloaderState::load`: read the first state page into the RAM buffer;
if its CRC does not check out, use the second page instead. -/
def load (f : Flash) (ss : Nat) : Buffer :=
  let s0 := pageRead f ss
  if IsValid s0 then s0 else pageRead f (ss + 1)

/-- `BootloaderState::prepare_swap`: set the goal to the finish variant,
reset every page state to `Original`, and persist with a full `store`. -/
def prepareSwap (L : Layout) (testSwap : Bool) (b : Buffer) (f : Flash) :
    Buffer × Flash :=
  let b1 := setGoal b (if testSwap then .finishTestSwap else .finishSwap)
  let b2 := (List.range L.nPages).foldl (fun acc p => setPageState acc p .original) b1
  (b2, applyOps (storeOps f L.stateStart b2) f)

/-- The observable outcome of a boot that does not panic: handing control
to the application in slot A. -/
inductive BootAction where
  | jumpToApplication
deriving DecidableEq, Repr

/-- The dispatch logic of `run_main`: load the state, fall through to the
application handoff if it is invalid, otherwise dispatch on the goal.
`none` is a panic (corrupt but CRC-valid buffer). -/
def runMain (L : Layout) (f : Flash) : Option (BootAction × Flash) :=
  let st := load f L.stateStart
  if IsValid st then
    match goalOf st with
    | none => none
    | some .jumpToApplication => some (.jumpToApplication, f)
    | some .startSwap =>
        let (b1, f1) := prepareSwap L false st f
        match performSwapRun L false b1 f1 with
        | none => none
        | some (_, f2) => some (.jumpToApplication, f2)
    | some .finishSwap =>
        match performSwapRun L false st f with
        | none => none
        | some (_, f2) => some (.jumpToApplication, f2)
    | some .startTestSwap =>
        let (b1, f1) := prepareSwap L true st f
        match performSwapRun L true b1 f1 with
        | none => none
        | some (_, f2) => some (.jumpToApplication, f2)
    | some .finishTestSwap =>
        match performSwapRun L true st f with
        | none => none
        | some (_, f2) => some (.jumpToApplication, f2)
  else some (.jumpToApplication, f)

/-! ## Application handoff (`jump_to_application` in `bootloader/src/main.rs`)

The walker scans 32-bit words upward from `slot_a.start` (byte addresses
stepping by 4), looking for an initial stack pointer followed eventually by
a reset vector inside slot A. -/

/-- The loop body of `jump_to_application`, over the remaining byte
addresses, carrying `application_address` and `found_init_stack_pointer`.
The result is the final `application_address`; `none` makes the handoff
panic (`Could not find a reset vector in the firmware`). -/
def walkGo (f : Flash) (lo hi : Nat) :
    List Nat → Option Nat → Bool → Option Nat
  | [], cand, _ => cand
  | a :: rest, cand, found =>
    let v := f (a / 4)
    if v = 0xFFFFFFFF then walkGo f lo hi rest cand found
    else if v = 0 then walkGo f lo hi rest cand found
    else if 0x20000000 ≤ v ∧ v < 0x20040000 ∧ found = false then
      walkGo f lo hi rest (some a) true
    else if lo ≤ v ∧ v < hi ∧ found = true then cand
    else none

/-- The byte addresses `program_slot_a_range().step_by(4)`. -/
def slotAddrs (lo hi : Nat) : List Nat :=
  (List.range ((hi - lo + 3) / 4)).map (fun k => lo + 4 * k)

/-- `jump_to_application` restricted to its observable result: the chosen
vector-table base address, or `none` for the panic. -/
def jumpToApp (f : Flash) (lo hi : Nat) : Option Nat :=
  walkGo f lo hi (slotAddrs lo hi) none false

/-- The first word value in the scan that is neither erased (0xFFFF_FFFF)
nor zero padding.  Used to state what the walker does after recording a
candidate. -/
def firstNonPad (f : Flash) : List Nat → Option Nat
  | [] => none
  | a :: rest =>
    let v := f (a / 4)
    if v = 0xFFFFFFFF then firstNonPad f rest
    else if v = 0 then firstNonPad f rest
    else some v

/-! ## Spec-side predicates (formalising the claims' wording) -/

/-- Page `pg` of the flash holds exactly the 1024-word image `d`. -/
def pageIs (f : Flash) (pg : Nat) (d : Nat → Nat) : Prop :=
  ∀ i, i < 1024 → f (pg * 1024 + i) = d i

instance (f : Flash) (pg : Nat) (d : Nat → Nat) : Decidable (pageIs f pg d) := by
  unfold pageIs; infer_instance

/-- The per-variant flash invariant of the resumability claim: what slot A
page `p`, slot B page `p` and the scratch page named by the state must hold,
given the original images `a` and `bb` of the two pages. -/
def specPageConsistent (f : Flash) (L : Layout) (p : Nat) (a bb : Nat → Nat) :
    PageState → Prop
  | .original => pageIs f (L.slotAStart + p) a
  | .inScratch s => pageIs f (L.slotAStart + p) a ∧ pageIs f s a
  | .inScratchOverwritten s => pageIs f (L.slotAStart + p) bb ∧ pageIs f s a
  | .swapped => pageIs f (L.slotAStart + p) bb ∧ pageIs f (L.slotBStart + p) a

instance (f : Flash) (L : Layout) (p : Nat) (a bb : Nat → Nat) (st : PageState) :
    Decidable (specPageConsistent f L p a bb st) := by
  cases st <;> simp only [specPageConsistent] <;> infer_instance

/-- Number of remaining transitions in the chain
`Original → InScratch → InScratchOverwritten → Swapped`. -/
def rank : PageState → Nat
  | .original => 3
  | .inScratch _ => 2
  | .inScratchOverwritten _ => 1
  | .swapped => 0

/-- The successor of a page state in the chain, where `sp` is the scratch
page the engine would pick for an `Original` page. -/
def nextPS (sp : Nat) : PageState → PageState
  | .original => .inScratch sp
  | .inScratch s => .inScratchOverwritten s
  | .inScratchOverwritten _ => .swapped
  | .swapped => .swapped

/-! ## Concrete configurations for witnesses and counterexamples -/

/-- A tiny but fully concrete memory layout: pages 0–1 bootloader code,
page 2 scratch (one page), pages 3–4 the state region, page 5 slot A,
page 6 slot B; `N = 1`. -/
def L1 : Layout := ⟨2, 1, 3, 5, 6, 1⟩

/-- A prepared swap state: goal `FinishSwap` (2), correct CRC, every page
`Original`. -/
def bC1 : Buffer := fun i =>
  if i = 0 then 0xE4279631 else if i = 1 then 2 else 0xFFFFFFFF

/-- Concrete initial flash for the crash scenario: both state mirrors hold
`bC1`; slot A page is `origA`; slot B page is `origB`; scratch erased;
bootloader page 0 starts with some code word. -/
def fC1 : Flash := fun i =>
  if i = 0 then 0xDEADBEEF
  else if i < 3072 then 0xFFFFFFFF
  else if i < 4096 then bC1 (i - 3072)
  else if i < 5120 then bC1 (i - 4096)
  else if i = 5120 then 0xA0A0A0A0
  else if i < 6144 then 0xFFFFFFFF
  else if i = 6144 then 0xB0B0B0B0
  else 0xFFFFFFFF

/-- The original contents of slot A page 0 in the crash scenario. -/
def origA : Nat → Nat := fun i => if i = 0 then 0xA0A0A0A0 else 0xFFFFFFFF

/-- The original contents of slot B page 0 in the crash scenario. -/
def origB : Nat → Nat := fun i => if i = 0 then 0xB0B0B0B0 else 0xFFFFFFFF

/-- The full sequence of atomic flash operations the swap engine issues on
the concrete scenario. -/
def opsC1 : List FlashOp := ((performSwapOps L1 false bC1 fC1).map Prod.snd).getD []

/-- The flash after a crash right after the 11th atomic operation: the
write of the `cached[0]` state word during the `burn_store` that publishes
`Swapped` for page 0 (mirror 0), before the `finished[0]` word is written. -/
def fCrash : Flash := applyOps (opsC1.take 11) fC1

/-- A buffer whose page 0 is `InScratchOverwritten { scratch_page: 2 }` and
whose other words are erased. -/
def bC2 : Buffer := fun i =>
  if i = 256 then 2 else if i = 512 then VALID_WORD else 0xFFFFFFFF

/-- Flash holding `bC2` in the state mirror at page 3 (word address 3072). -/
def fC2 : Flash := fun i =>
  if 3072 ≤ i ∧ i < 4096 then bC2 (i - 3072) else 0xFFFFFFFF

/-- A buffer whose words [1..256) have CRC-32/MPEG-2 exactly 0xFFFFFFFF
(the last reserved word is chosen to force this). -/
def bCrcFF : Buffer := fun i =>
  if i = 0 then 0 else if i = 1 then 0 else if i = 255 then 0xB2E5A508
  else 0xFFFFFFFF

/-- Slot A contents for the handoff counterexample: a stack-pointer word,
an erased word, then a reset vector into slot A.  Slot A is the byte range
[0x9000, 0xA000). -/
def fC3 : Flash := fun i =>
  if i = 0x2400 then 0x20000100
  else if i = 0x2402 then 0x9008
  else 0xFFFFFFFF

/-- Slot A contents whose only non-padding word is a stack pointer in the
very last word of the slot. -/
def fC3b : Flash := fun i =>
  if i = 0x27FF then 0x20000100 else 0xFFFFFFFF

/-- A flash whose primary state mirror (page 3) is valid with goal
`JumpToApplication` and whose backup mirror (page 4) is erased. -/
def fC5 : Flash := fun i =>
  if 3072 ≤ i ∧ i < 4096 then
    (if i = 3072 then 0xD000A3E2 else if i = 3073 then 0 else 0xFFFFFFFF)
  else 0xFFFFFFFF

/-- A fully erased flash: both state mirrors fail the CRC check. -/
def fErased : Flash := fun _ => 0xFFFFFFFF

/-! # Theorems -/

/-! ## Elementary lemmas about the combinators -/

theorem strict_eq {α : Sort _} (n : Nat) (k : Nat → α) : strict n k = k n := by
  cases n <;> rfl

theorem strictOp_eq {α : Sort _} (op : FlashOp) (k : FlashOp → α) :
    strictOp op k = k op := by
  cases op <;> simp [strictOp, strict_eq]

theorem withOps_eq {α : Sort _} (l : List FlashOp) (k : List FlashOp → α) :
    withOps l k = k l := by
  induction l generalizing k with
  | nil => rfl
  | cons op rest ih => simp [withOps, strictOp_eq, ih]

theorem upd_self (b : Buffer) (i v : Nat) : upd b i v i = v := by
  simp [upd]

theorem upd_other (b : Buffer) (i v j : Nat) (h : j ≠ i) : upd b i v j = b j := by
  simp [upd, h]

/-! ## Reading back `set_page_state` -/

theorem setPageState_cached (b : Buffer) (p : Nat) (st : PageState) :
    setPageState b p st (256 + p) = (encodePS st).1 := by
  unfold setPageState
  rw [upd_other _ _ _ _ (by omega), upd_other _ _ _ _ (by omega), upd_self]

theorem setPageState_copied (b : Buffer) (p : Nat) (st : PageState) :
    setPageState b p st (512 + p) = (encodePS st).2.1 := by
  unfold setPageState
  rw [upd_other _ _ _ _ (by omega), upd_self]

theorem setPageState_finished (b : Buffer) (p : Nat) (st : PageState) :
    setPageState b p st (768 + p) = (encodePS st).2.2 := by
  unfold setPageState
  rw [upd_self]

theorem setPageState_other (b : Buffer) (p : Nat) (st : PageState) (i : Nat)
    (h1 : i ≠ 256 + p) (h2 : i ≠ 512 + p) (h3 : i ≠ 768 + p) :
    setPageState b p st i = b i := by
  unfold setPageState
  rw [upd_other _ _ _ _ h3, upd_other _ _ _ _ h2, upd_other _ _ _ _ h1]

theorem get_setPageState_original (b : Buffer) (p : Nat) :
    getPageState (setPageState b p .original) p = some .original := by
  unfold getPageState
  rw [setPageState_cached, setPageState_copied, setPageState_finished]
  decide

theorem get_setPageState_inScratch (b : Buffer) (p s : Nat) (h : s ≠ 0xFFFFFFFF) :
    getPageState (setPageState b p (.inScratch s)) p = some (.inScratch s) := by
  unfold getPageState
  rw [setPageState_cached, setPageState_copied, setPageState_finished]
  simp [encodePS, decodePS, h]

theorem get_setPageState_overwritten (b : Buffer) (p s : Nat) :
    getPageState (setPageState b p (.inScratchOverwritten s)) p =
      some (.inScratchOverwritten s) := by
  unfold getPageState
  rw [setPageState_cached, setPageState_copied, setPageState_finished]
  simp [encodePS, decodePS, VALID_WORD]

theorem get_setPageState_swapped (b : Buffer) (p : Nat) :
    getPageState (setPageState b p .swapped) p = some .swapped := by
  unfold getPageState
  rw [setPageState_cached, setPageState_copied, setPageState_finished]
  decide

/-! ## Decode inversion -/

theorem getPageState_original_inv {b : Buffer} {p : Nat}
    (h : getPageState b p = some .original) :
    b (256 + p) = 0xFFFFFFFF ∧ b (512 + p) = 0xFFFFFFFF ∧
      b (768 + p) = 0xFFFFFFFF := by
  unfold getPageState decodePS at h
  split_ifs at h with h1 h2 h3 h4 <;> simp_all

theorem getPageState_inScratch_inv {b : Buffer} {p s : Nat}
    (h : getPageState b p = some (.inScratch s)) :
    b (256 + p) = s ∧ s ≠ 0xFFFFFFFF ∧ b (512 + p) = 0xFFFFFFFF ∧
      b (768 + p) = 0xFFFFFFFF := by
  unfold getPageState decodePS at h
  split_ifs at h with h1 h2 h3 h4 <;> simp_all

theorem getPageState_overwritten_inv {b : Buffer} {p s : Nat}
    (h : getPageState b p = some (.inScratchOverwritten s)) :
    b (256 + p) = s ∧ b (512 + p) = VALID_WORD ∧ b (768 + p) = 0xFFFFFFFF := by
  unfold getPageState decodePS at h
  split_ifs at h with h1 h2 h3 h4 <;> simp_all

/-! ## CRC congruence -/

theorem crcLoopB_succ (b : Buffer) (c n : Nat) :
    crcLoopB b c (n + 1) =
      if n = 0 then c
      else strict (crcWord c (b (256 - n))) fun c' => crcLoopB b c' n :=
  rfl

theorem crcLoopB_congr {b1 b2 : Buffer}
    (h : ∀ i, 1 ≤ i → i ≤ 255 → b1 i = b2 i) :
    ∀ n, n ≤ 256 → ∀ c, crcLoopB b1 c n = crcLoopB b2 c n := by
  intro n
  induction n with
  | zero => intro _ c; rfl
  | succ k ih =>
    intro hm c
    rw [crcLoopB_succ, crcLoopB_succ]
    by_cases hk : k = 0
    · simp [hk]
    · rw [if_neg hk, if_neg hk, strict_eq, strict_eq,
        h (256 - k) (by omega) (by omega)]
      exact ih (by omega) _

theorem calcCrc_congr {b1 b2 : Buffer}
    (h : ∀ i, 1 ≤ i → i ≤ 255 → b1 i = b2 i) : calcCrc b1 = calcCrc b2 :=
  crcLoopB_congr h 256 (by omega) 0xFFFFFFFF

theorem isValid_congr {b1 b2 : Buffer} (h0 : b1 0 = b2 0)
    (h : ∀ i, 1 ≤ i → i ≤ 255 → b1 i = b2 i) : IsValid b1 ↔ IsValid b2 := by
  unfold IsValid
  rw [h0, calcCrc_congr h]

/-! ## Flash operation lemmas -/

/-- `op` does not touch word address `x`. -/
def opAvoids : FlashOp → Nat → Prop
  | .erase p, x => x < p * 1024 ∨ (p + 1) * 1024 ≤ x
  | .write a _, x => a ≠ x

theorem applyOp_avoid (f : Flash) (op : FlashOp) (x : Nat) (h : opAvoids op x) :
    applyOp f op x = f x := by
  cases op with
  | erase p =>
    simp only [opAvoids] at h
    simp only [applyOp]
    rw [if_neg (by omega)]
  | write a v =>
    simp only [opAvoids] at h
    simp only [applyOp]
    rw [if_neg (fun hx => h hx.symm)]

theorem applyOps_avoid (ops : List FlashOp) (f : Flash) (x : Nat)
    (h : ∀ op ∈ ops, opAvoids op x) : applyOps ops f x = f x := by
  induction ops generalizing f with
  | nil => rfl
  | cons op rest ih =>
    show applyOps rest (applyOp f op) x = f x
    rw [ih (applyOp f op) (fun o ho => h o (List.mem_cons_of_mem _ ho)),
      applyOp_avoid f op x (h op (List.mem_cons_self _ _))]

theorem applyOps_cons (op : FlashOp) (ops : List FlashOp) (f : Flash) :
    applyOps (op :: ops) f = applyOps ops (applyOp f op) := rfl

theorem applyOps_append (o1 o2 : List FlashOp) (f : Flash) :
    applyOps (o1 ++ o2) f = applyOps o2 (applyOps o1 f) :=
  List.foldl_append _ _ _ _

theorem programOps_mem_inv {f : Flash} {base : Nat} {data : Nat → Nat}
    {op : FlashOp} (h : op ∈ programOps f base data) :
    ∃ j, j < 1024 ∧ op = .write (base + j) (data j) ∧ f (base + j) ≠ data j := by
  unfold programOps at h
  rcases List.mem_filterMap.mp h with ⟨j, hj, hstep⟩
  by_cases hc : f (base + j) = data j
  · rw [if_pos hc] at hstep; cases hstep
  · rw [if_neg hc] at hstep
    exact ⟨j, List.mem_range.mp hj, (Option.some_inj.mp hstep).symm, hc⟩

/-- Write ops generated for addresses `base + k`, `k ∈ l`, avoid any word
address `base + j` with `j ∉ l`. -/
theorem progList_avoids (f : Flash) (base : Nat) (data : Nat → Nat)
    (l : List Nat) (x : Nat) (hx : ∀ k ∈ l, base + k ≠ x) :
    ∀ op ∈ l.filterMap fun k =>
        if f (base + k) = data k then none
        else some (FlashOp.write (base + k) (data k)), opAvoids op x := by
  intro op hop
  rcases List.mem_filterMap.mp hop with ⟨k, hk, hstep⟩
  by_cases hc : f (base + k) = data k
  · rw [if_pos hc] at hstep; cases hstep
  · rw [if_neg hc] at hstep
    rcases Option.some_inj.mp hstep with rfl
    exact hx k hk

/-- Reading back through the write sequence of a page program: the word at
`base + j` ends as `old AND data j` (which is `data j` when the page was
erased there). -/
theorem applyOps_filterMap_read (f : Flash) (base : Nat) (data : Nat → Nat) :
    ∀ (l : List Nat) (g : Flash) (j : Nat), j ∈ l → l.Nodup →
      (∀ k ∈ l, g (base + k) = f (base + k)) →
      applyOps (l.filterMap fun k =>
          if f (base + k) = data k then none
          else some (.write (base + k) (data k))) g (base + j)
        = f (base + j) &&& data j := by
  intro l
  induction l with
  | nil => intro g j hj; cases hj
  | cons k rest ih =>
    intro g j hj hnd hg
    rcases List.mem_cons.mp hj with rfl | hj'
    · -- j is the head; no write for address base + j appears in the rest
      have havoid : ∀ op ∈ rest.filterMap fun k' =>
          if f (base + k') = data k' then none
          else some (FlashOp.write (base + k') (data k')), opAvoids op (base + j) :=
        progList_avoids f base data rest (base + j) (fun k' hk' he =>
          (List.nodup_cons.mp hnd).1 (by
            have hkj : k' = j := by omega
            exact hkj ▸ hk'))
      by_cases hk : f (base + j) = data j
      · rw [List.filterMap_cons_none (by rw [if_pos hk])]
        rw [applyOps_avoid _ _ _ havoid, hg j (List.mem_cons_self _ _), hk,
          Nat.and_self]
      · rw [List.filterMap_cons_some (by rw [if_neg hk]), applyOps_cons,
          applyOps_avoid _ _ _ havoid]
        show (if base + j = base + j then g (base + j) &&& data j else g (base + j))
          = f (base + j) &&& data j
        rw [if_pos rfl, hg j (List.mem_cons_self _ _)]
    · -- j is in the tail
      have hkj : k ≠ j := fun he => (List.nodup_cons.mp hnd).1 (he ▸ hj')
      have hrest := (List.nodup_cons.mp hnd).2
      by_cases hk : f (base + k) = data k
      · rw [List.filterMap_cons_none (by rw [if_pos hk])]
        exact ih g j hj' hrest (fun k' h' => hg k' (List.mem_cons_of_mem _ h'))
      · rw [List.filterMap_cons_some (by rw [if_neg hk]), applyOps_cons]
        refine ih (applyOp g (.write (base + k) (data k))) j hj' hrest ?_
        intro k' hk'
        have hne : base + k ≠ base + k' := by
          have : k' ≠ k := fun he => (List.nodup_cons.mp hnd).1 (he ▸ hk')
          omega
        rw [applyOp_avoid g (.write (base + k) (data k)) (base + k') hne]
        exact hg k' (List.mem_cons_of_mem _ hk')

theorem and_mask32 {v : Nat} (hv : v < 2 ^ 32) : 0xFFFFFFFF &&& v = v := by
  rw [Nat.land_comm]
  have h32 : (0xFFFFFFFF : Nat) = 2 ^ 32 - 1 := by norm_num
  rw [h32]
  exact Nat.and_pow_two_sub_one_of_lt_two_pow hv

theorem read_programOps {f : Flash} {base j : Nat} (data : Nat → Nat)
    (hj : j < 1024) :
    applyOps (programOps f base data) f (base + j) = f (base + j) &&& data j := by
  unfold programOps
  exact applyOps_filterMap_read f base data (List.range 1024) f j
    (List.mem_range.mpr hj) (List.nodup_range _) (fun _ _ => rfl)

theorem programOps_avoid {f : Flash} {base : Nat} (data : Nat → Nat) (x : Nat)
    (hx : x < base ∨ base + 1024 ≤ x) :
    ∀ op ∈ programOps f base data, opAvoids op x := by
  unfold programOps
  exact progList_avoids f base data (List.range 1024) x
    (fun k hk => by have := List.mem_range.mp hk; omega)

theorem applyOp_erase_in (f : Flash) (p x : Nat)
    (h : p * 1024 ≤ x ∧ x < (p + 1) * 1024) :
    applyOp f (.erase p) x = 0xFFFFFFFF := by
  simp only [applyOp]
  rw [if_pos h]

/-- After a full `store`, both state mirror pages hold exactly the buffer.
`erase` then `program` leaves `0xFFFFFFFF AND b j = b j` in every word. -/
theorem storeOps_reads (f : Flash) (ss : Nat) (b : Buffer)
    (hb : ∀ j, j < 1024 → b j < 2 ^ 32) :
    ∀ j, j < 1024 →
      applyOps (storeOps f ss b) f (ss * 1024 + j) = b j ∧
      applyOps (storeOps f ss b) f ((ss + 1) * 1024 + j) = b j := by
  intro j hj
  unfold storeOps
  rw [withOps_eq, withOps_eq]
  set fE0 := applyOp f (.erase ss) with hfE0
  set o1 := programOps fE0 (ss * 1024) b with ho1
  set f1 := applyOps o1 fE0 with hf1
  set fE1 := applyOp f1 (.erase (ss + 1)) with hfE1
  set o2 := programOps fE1 ((ss + 1) * 1024) b with ho2
  have hsplit : applyOps (FlashOp.erase ss :: o1 ++ FlashOp.erase (ss + 1) :: o2) f
      = applyOps o2 fE1 := by
    rw [applyOps_append, applyOps_cons, applyOps_cons, ← hfE0, ← hf1, ← hfE1]
  rw [hsplit]
  constructor
  · -- mirror 0: erased, programmed by o1, untouched afterwards
    have havoid2 : ∀ op ∈ o2, opAvoids op (ss * 1024 + j) := by
      rw [ho2]
      exact programOps_avoid b _ (by omega)
    rw [applyOps_avoid _ _ _ havoid2, hfE1,
      applyOp_avoid f1 (.erase (ss + 1)) (ss * 1024 + j)
        (show opAvoids (.erase (ss + 1)) (ss * 1024 + j) from by
          simp only [opAvoids]; omega)]
    rw [hf1, ho1]
    rw [read_programOps b hj]
    rw [hfE0, applyOp_erase_in f ss _ (by omega)]
    exact and_mask32 (hb j hj)
  · -- mirror 1: erased by the second erase, programmed by o2
    rw [ho2, read_programOps b hj]
    rw [hfE1, applyOp_erase_in f1 (ss + 1) _ (by omega)]
    exact and_mask32 (hb j hj)

/-! ## `set_goal` lemmas -/

theorem setGoal_goalWord (b : Buffer) (g : BootloaderGoal) :
    setGoal b g 1 = goalToPrimitive g := by
  unfold setGoal setValid
  by_cases h : IsValid b
  · rw [if_pos h, upd_other _ _ _ _ (by omega), upd_self]
  · rw [if_neg h, upd_self]

theorem goalOf_setGoal (b : Buffer) (g : BootloaderGoal) :
    goalOf (setGoal b g) = some g := by
  unfold goalOf
  rw [setGoal_goalWord]
  cases g <;> rfl

theorem setGoal_other (b : Buffer) (g : BootloaderGoal) (i : Nat)
    (h0 : i ≠ 0) (h1 : i ≠ 1) : setGoal b g i = b i := by
  unfold setGoal setValid
  by_cases h : IsValid b
  · rw [if_pos h, upd_other _ _ _ _ h0, upd_other _ _ _ _ h1]
  · rw [if_neg h, upd_other _ _ _ _ h1]

theorem isValid_setGoal (b : Buffer) (g : BootloaderGoal) (h : IsValid b) :
    IsValid (setGoal b g) := by
  unfold setGoal
  rw [if_pos h]
  show IsValid (setValid (upd b 1 (goalToPrimitive g)) true)
  unfold setValid IsValid
  rw [if_pos rfl, upd_self]
  exact calcCrc_congr fun i hi1 _ => (upd_other _ _ _ _ (by omega)).symm

theorem isValid_setPageState (b : Buffer) (p : Nat) (st : PageState)
    (hp : p < 256) : IsValid (setPageState b p st) ↔ IsValid b :=
  isValid_congr (setPageState_other _ _ _ _ (by omega) (by omega) (by omega))
    (fun i h1 h2 => setPageState_other _ _ _ _ (by omega) (by omega) (by omega))

theorem getPageState_setPageState_other (b : Buffer) (p : Nat) (st : PageState)
    (q : Nat) (hp : p < 256) (hq : q < 256) (hne : q ≠ p) :
    getPageState (setPageState b p st) q = getPageState b q := by
  unfold getPageState
  rw [setPageState_other _ _ _ _ (by omega) (by omega) (by omega),
    setPageState_other _ _ _ _ (by omega) (by omega) (by omega),
    setPageState_other _ _ _ _ (by omega) (by omega) (by omega)]

/-! ## Swap engine: one transition -/

theorem swapStepOps_spec (L : Layout) (p sIdx : Nat) (b : Buffer) (f : Flash)
    (X : PageState) (hX : getPageState b p = some X) (hXs : X ≠ .swapped)
    (hsp : L.scratchStart + sIdx ≠ 0xFFFFFFFF) :
    ∃ ops, swapStepOps L p sIdx b f
        = some (setPageState b p (nextPS (L.scratchStart + sIdx) X), ops) ∧
      getPageState (setPageState b p (nextPS (L.scratchStart + sIdx) X)) p
        = some (nextPS (L.scratchStart + sIdx) X) := by
  cases X with
  | original =>
    unfold swapStepOps
    rw [hX]
    simp only [withOps_eq, nextPS]
    exact ⟨_, rfl, get_setPageState_inScratch b p _ hsp⟩
  | inScratch s =>
    unfold swapStepOps
    rw [hX]
    simp only [withOps_eq, nextPS]
    exact ⟨_, rfl, get_setPageState_overwritten b p s⟩
  | inScratchOverwritten s =>
    unfold swapStepOps
    rw [hX]
    simp only [withOps_eq, nextPS]
    exact ⟨_, rfl, get_setPageState_swapped b p⟩
  | swapped => exact absurd rfl hXs

/-! ## Swap engine: the per-page loop -/

theorem swapPageLoopOps_swapped (L : Layout) (p sIdx n : Nat) (b : Buffer)
    (f : Flash) (hX : getPageState b p = some .swapped) :
    swapPageLoopOps L p sIdx n b f = some (b, []) := by
  cases n <;> (unfold swapPageLoopOps; rw [hX])

theorem swapPageLoopOps_cons (L : Layout) (p sIdx n : Nat) (b : Buffer)
    (f : Flash) (X : PageState) (b1 : Buffer) (ops1 : List FlashOp)
    (hX : getPageState b p = some X) (hne : X ≠ .swapped)
    (hstep : swapStepOps L p sIdx b f = some (b1, ops1)) :
    swapPageLoopOps L p sIdx (n + 1) b f =
      match swapPageLoopOps L p sIdx n b1 (applyOps ops1 f) with
      | none => none
      | some (b2, ops2) => some (b2, ops1 ++ ops2) := by
  have hu : swapPageLoopOps L p sIdx (n + 1) b f =
      match getPageState b p with
      | none => none
      | some .swapped => some (b, [])
      | some _ =>
        match swapStepOps L p sIdx b f with
        | none => none
        | some (b1, ops) =>
          match swapPageLoopOps L p sIdx n b1 (applyOps ops f) with
          | none => none
          | some (b2, ops2) => some (b2, ops ++ ops2) := rfl
  rw [hu, hX, hstep]
  cases X <;> first | rfl | exact absurd rfl hne

theorem setPageState_bound (b : Buffer) (p : Nat) (st : PageState)
    (hb : ∀ i, b i < 2 ^ 32)
    (h1 : (encodePS st).1 < 2 ^ 32) (h2 : (encodePS st).2.1 < 2 ^ 32)
    (h3 : (encodePS st).2.2 < 2 ^ 32) :
    ∀ i, setPageState b p st i < 2 ^ 32 := by
  intro i
  unfold setPageState upd
  split_ifs <;> first | exact h3 | exact h2 | exact h1 | exact hb i

/-- Progress through the whole chain: three iterations of the inner loop
always reach `Swapped`, whatever well-formed state the page starts in. -/
theorem swapPageLoopOps_spec (L : Layout) (p sIdx : Nat) (b : Buffer)
    (f : Flash) (X : PageState) (hX : getPageState b p = some X)
    (hsp : L.scratchStart + sIdx < 0xFFFFFFFF) :
    ∃ b' ops, swapPageLoopOps L p sIdx 3 b f = some (b', ops) ∧
      getPageState b' p = some .swapped ∧
      (∀ i, i ≠ 256 + p → i ≠ 512 + p → i ≠ 768 + p → b' i = b i) ∧
      ((∀ i, b i < 2 ^ 32) → ∀ i, b' i < 2 ^ 32) := by
  have hspV : (VALID_WORD : Nat) < 2 ^ 32 := by norm_num [VALID_WORD]
  have hspF : (0xFFFFFFFF : Nat) < 2 ^ 32 := by norm_num
  have hsplt : L.scratchStart + sIdx < 2 ^ 32 := by
    have : (0xFFFFFFFF : Nat) < 2 ^ 32 := by norm_num
    omega
  cases X with
  | swapped =>
    exact ⟨b, [], swapPageLoopOps_swapped L p sIdx 3 b f hX, hX,
      fun _ _ _ _ => rfl, fun hb => hb⟩
  | original =>
    obtain ⟨ops1, he1, hg1⟩ :=
      swapStepOps_spec L p sIdx b f .original hX (by simp) (by omega)
    simp only [nextPS] at he1 hg1
    obtain ⟨ops2, he2, hg2⟩ :=
      swapStepOps_spec L p sIdx _ (applyOps ops1 f) (.inScratch (L.scratchStart + sIdx))
        hg1 (by simp) (by omega)
    simp only [nextPS] at he2 hg2
    obtain ⟨ops3, he3, hg3⟩ :=
      swapStepOps_spec L p sIdx _ (applyOps ops2 (applyOps ops1 f))
        (.inScratchOverwritten (L.scratchStart + sIdx)) hg2 (by simp) (by omega)
    simp only [nextPS] at he3 hg3
    rw [swapPageLoopOps_cons L p sIdx 2 b f _ _ _ hX (by simp) he1,
      swapPageLoopOps_cons L p sIdx 1 _ _ _ _ _ hg1 (by simp) he2,
      swapPageLoopOps_cons L p sIdx 0 _ _ _ _ _ hg2 (by simp) he3,
      swapPageLoopOps_swapped L p sIdx 0 _ _ hg3]
    refine ⟨_, _, rfl, hg3, ?_, ?_⟩
    · intro i hi1 hi2 hi3
      rw [setPageState_other _ _ _ _ hi1 hi2 hi3,
        setPageState_other _ _ _ _ hi1 hi2 hi3,
        setPageState_other _ _ _ _ hi1 hi2 hi3]
    · intro hb
      refine setPageState_bound _ _ _ ?_ hspV hspV hspV
      refine setPageState_bound _ _ _ ?_ hsplt hspV hspF
      exact setPageState_bound _ _ _ hb hsplt hspF hspF
  | inScratch s =>
    have hsne : s ≠ 0xFFFFFFFF := (getPageState_inScratch_inv hX).2.1
    obtain ⟨ops2, he2, hg2⟩ :=
      swapStepOps_spec L p sIdx b f (.inScratch s) hX (by simp) (by omega)
    simp only [nextPS] at he2 hg2
    obtain ⟨ops3, he3, hg3⟩ :=
      swapStepOps_spec L p sIdx _ (applyOps ops2 f)
        (.inScratchOverwritten s) hg2 (by simp) (by omega)
    simp only [nextPS] at he3 hg3
    rw [swapPageLoopOps_cons L p sIdx 2 b f _ _ _ hX (by simp) he2,
      swapPageLoopOps_cons L p sIdx 1 _ _ _ _ _ hg2 (by simp) he3,
      swapPageLoopOps_swapped L p sIdx 1 _ _ hg3]
    refine ⟨_, _, rfl, hg3, ?_, ?_⟩
    · intro i hi1 hi2 hi3
      rw [setPageState_other _ _ _ _ hi1 hi2 hi3,
        setPageState_other _ _ _ _ hi1 hi2 hi3]
    · intro hb
      have hs32 : s < 2 ^ 32 := by
        rcases Nat.lt_or_ge s (2 ^ 32) with h | h
        · exact h
        · exact absurd ((getPageState_inScratch_inv hX).1.symm ▸ hb (256 + p) :
            s < 2 ^ 32) (by omega)
      refine setPageState_bound _ _ _ ?_ hspV hspV hspV
      exact setPageState_bound _ _ _ hb hs32 hspV hspF
  | inScratchOverwritten s =>
    obtain ⟨ops3, he3, hg3⟩ :=
      swapStepOps_spec L p sIdx b f (.inScratchOverwritten s) hX (by simp) (by omega)
    simp only [nextPS] at he3 hg3
    rw [swapPageLoopOps_cons L p sIdx 2 b f _ _ _ hX (by simp) he3,
      swapPageLoopOps_swapped L p sIdx 2 _ _ hg3]
    refine ⟨_, _, rfl, hg3, ?_, ?_⟩
    · intro i hi1 hi2 hi3
      rw [setPageState_other _ _ _ _ hi1 hi2 hi3]
    · intro hb
      exact setPageState_bound _ _ _ hb hspV hspV hspV

/-! ## Value bounds -/

theorem crcBit_lt (c : Nat) : crcBit c < 2 ^ 32 := by
  have hm : (0xFFFFFFFF : Nat) = 2 ^ 32 - 1 := by norm_num
  unfold crcBit
  split_ifs <;>
    (rw [hm, Nat.and_pow_two_sub_one_eq_mod]; exact Nat.mod_lt _ (by norm_num))

theorem crcWord_lt (c w : Nat) : crcWord c w < 2 ^ 32 := by
  unfold crcWord
  rw [strict_eq, strict_eq, strict_eq]
  unfold crcByte crcBit8
  exact crcBit_lt _

theorem crcLoopB_lt (b : Buffer) : ∀ (n c : Nat), c < 2 ^ 32 →
    crcLoopB b c n < 2 ^ 32 := by
  intro n
  induction n with
  | zero => intro c hc; exact hc
  | succ k ih =>
    intro c hc
    rw [crcLoopB_succ]
    by_cases hk : k = 0
    · rw [if_pos hk]; exact hc
    · rw [if_neg hk, strict_eq]
      exact ih _ (crcWord_lt _ _)

theorem calcCrc_lt (b : Buffer) : calcCrc b < 2 ^ 32 :=
  crcLoopB_lt b 256 0xFFFFFFFF (by norm_num)

theorem goalToPrimitive_lt (g : BootloaderGoal) : goalToPrimitive g < 2 ^ 32 := by
  cases g <;> norm_num [goalToPrimitive]

theorem setGoal_bound (b : Buffer) (g : BootloaderGoal)
    (hb : ∀ i, b i < 2 ^ 32) : ∀ i, setGoal b g i < 2 ^ 32 := by
  intro i
  unfold setGoal setValid
  split_ifs with h hv
  · unfold upd
    split_ifs with h1 h2
    · exact calcCrc_lt _
    · exact goalToPrimitive_lt g
    · exact hb i
  · unfold upd
    split_ifs with h1 h2
    · norm_num
    · exact goalToPrimitive_lt g
    · exact hb i
  · unfold upd
    split_ifs with h1
    · exact goalToPrimitive_lt g
    · exact hb i

/-! ## Swap engine: the outer page loop -/

theorem performSwapAuxOps_cons (L : Layout) (test : Bool) (p : Nat)
    (rest : List Nat) (sIdx : Nat) (b b1 : Buffer) (f : Flash)
    (ops1 : List FlashOp)
    (hloop : swapPageLoopOps L p sIdx 3 b f = some (b1, ops1)) :
    performSwapAuxOps L test (p :: rest) sIdx b f =
      match performSwapAuxOps L test rest ((sIdx + 1) % L.scratchLen) b1
          (applyOps ops1 f) with
      | none => none
      | some (b2, ops2) => some (b2, ops1 ++ ops2) := by
  have hu : performSwapAuxOps L test (p :: rest) sIdx b f =
      match swapPageLoopOps L p sIdx 3 b f with
      | none => none
      | some (b1, ops) =>
        match performSwapAuxOps L test rest ((sIdx + 1) % L.scratchLen) b1
            (applyOps ops f) with
        | none => none
        | some (b2, ops2) => some (b2, ops ++ ops2) := rfl
  rw [hu, hloop]

set_option maxRecDepth 4000 in
theorem performSwapAuxOps_spec (L : Layout) (test : Bool) :
    ∀ (l : List Nat) (sIdx : Nat) (b : Buffer) (f : Flash),
      sIdx < L.scratchLen →
      L.scratchStart + L.scratchLen ≤ 0xFFFFFFFF →
      (∀ p ∈ l, p < 256) →
      (∀ p ∈ l, (getPageState b p).isSome) →
      (∀ i, b i < 2 ^ 32) →
      ∃ b'' pre, performSwapAuxOps L test l sIdx b f =
          some (setGoal b'' (if test then .startSwap else .jumpToApplication),
            pre ++ storeOps (applyOps pre f) L.stateStart
              (setGoal b'' (if test then .startSwap else .jumpToApplication))) ∧
        (∀ i, i < 256 → b'' i = b i) ∧ (∀ i, b'' i < 2 ^ 32) := by
  intro l
  induction l with
  | nil =>
    intro sIdx b f _ _ _ _ hb
    exact ⟨b, [], rfl, fun _ _ => rfl, hb⟩
  | cons p rest ih =>
    intro sIdx b f hsi hscr hlt hsome hb
    have hp256 : p < 256 := hlt p (List.mem_cons_self _ _)
    obtain ⟨X, hX⟩ := Option.isSome_iff_exists.mp (hsome p (List.mem_cons_self _ _))
    have hsp : L.scratchStart + sIdx < 0xFFFFFFFF := by omega
    obtain ⟨b1, ops1, hloop, hg1, hframe, hbound⟩ :=
      swapPageLoopOps_spec L p sIdx b f X hX hsp
    have hframe256 : ∀ i, i < 256 → b1 i = b i := fun i hi =>
      hframe i (by omega) (by omega) (by omega)
    have hsome1 : ∀ q ∈ rest, (getPageState b1 q).isSome := by
      intro q hq
      by_cases hqp : q = p
      · rw [hqp, hg1]; rfl
      · have hq256 : q < 256 := hlt q (List.mem_cons_of_mem _ hq)
        have : getPageState b1 q = getPageState b q := by
          unfold getPageState
          rw [hframe (256 + q) (by omega) (by omega) (by omega),
            hframe (512 + q) (by omega) (by omega) (by omega),
            hframe (768 + q) (by omega) (by omega) (by omega)]
        rw [this]
        exact hsome q (List.mem_cons_of_mem _ hq)
    obtain ⟨b'', pre', hrec, hagree, hbound'⟩ :=
      ih ((sIdx + 1) % L.scratchLen) b1 (applyOps ops1 f)
        (Nat.mod_lt _ (by omega)) hscr
        (fun q hq => hlt q (List.mem_cons_of_mem _ hq)) hsome1 (hbound hb)
    refine ⟨b'', ops1 ++ pre', ?_, ?_, hbound'⟩
    · rw [performSwapAuxOps_cons L test p rest sIdx b b1 f ops1 hloop, hrec]
      rw [applyOps_append, List.append_assoc]
    · intro i hi
      rw [hagree i hi, hframe256 i hi]

/-! ## Claim theorems -/

/-- C6. Terminal goal: when `perform_swap` runs to completion over all `N`
pages, it sets the goal to `StartSwap` for a test swap and to
`JumpToApplication` otherwise, and persists it with the full erase-and-
program `store`: afterwards both state mirror pages in flash hold exactly
the final RAM buffer (whose CRC word `set_goal` rewrote, so a valid state
stays valid). -/
theorem perform_swap_terminal_goal (L : Layout) (test : Bool) (b : Buffer)
    (f : Flash) (h1 : 0 < L.scratchLen)
    (h2 : L.scratchStart + L.scratchLen ≤ 0xFFFFFFFF)
    (h3 : ∀ p, p < L.nPages → (getPageState b p).isSome)
    (h4 : L.nPages ≤ 256) (hb : ∀ i, b i < 2 ^ 32) :
    ∃ b' ops, performSwapOps L test b f = some (b', ops) ∧
      goalOf b' = some (if test then .startSwap else .jumpToApplication) ∧
      (∀ j, j < 1024 → applyOps ops f (L.stateStart * 1024 + j) = b' j ∧
        applyOps ops f ((L.stateStart + 1) * 1024 + j) = b' j) ∧
      (IsValid b → IsValid b') := by
  obtain ⟨b'', pre, heq, hagree, hbound⟩ :=
    performSwapAuxOps_spec L test (List.range L.nPages) 0 b f h1 h2
      (fun p hp => by have := List.mem_range.mp hp; omega)
      (fun p hp => h3 p (List.mem_range.mp hp)) hb
  refine ⟨setGoal b'' (if test then .startSwap else .jumpToApplication), _,
    heq, goalOf_setGoal _ _, ?_, ?_⟩
  · intro j hj
    rw [applyOps_append]
    exact storeOps_reads (applyOps pre f) L.stateStart _
      (fun j _ => setGoal_bound b'' _ hbound j) j hj
  · intro hv
    exact isValid_setGoal _ _
      ((isValid_congr (hagree 0 (by norm_num))
        (fun i hi1 hi2 => hagree i (by omega))).mpr hv)

/-- Witness for C6 at the concrete one-page configuration. -/
theorem perform_swap_terminal_goal_witness :
    ∃ b' ops, performSwapOps L1 false bC1 fC1 = some (b', ops) ∧
      goalOf b' = some .jumpToApplication ∧
      (∀ j, j < 1024 →
        applyOps ops fC1 (L1.stateStart * 1024 + j) = b' j ∧
        applyOps ops fC1 ((L1.stateStart + 1) * 1024 + j) = b' j) ∧
      (IsValid bC1 → IsValid b') := by
  have h := perform_swap_terminal_goal L1 false bC1 fC1 (by norm_num [L1])
    (by norm_num [L1]) (by decide) (by norm_num [L1])
    (by intro i; unfold bC1; split_ifs <;> norm_num)
  simpa using h

/-- C7. Progress: from any well-formed non-terminal page state, one
iteration of the inner loop advances the page state by exactly one step
along the chain, and the loop reaches `Swapped` within its 3-step budget. -/
theorem swap_page_progress (L : Layout) (p sIdx : Nat) (b : Buffer)
    (f : Flash) (X : PageState) (hX : getPageState b p = some X)
    (hne : X ≠ .swapped) (hsp : L.scratchStart + sIdx < 0xFFFFFFFF) :
    (∃ b' ops, swapStepOps L p sIdx b f = some (b', ops) ∧
      getPageState b' p = some (nextPS (L.scratchStart + sIdx) X) ∧
      rank (nextPS (L.scratchStart + sIdx) X) + 1 = rank X) ∧
    (∃ b'' ops'', swapPageLoopOps L p sIdx 3 b f = some (b'', ops'') ∧
      getPageState b'' p = some .swapped) := by
  constructor
  · obtain ⟨ops, he, hg⟩ := swapStepOps_spec L p sIdx b f X hX hne (by omega)
    refine ⟨_, ops, he, hg, ?_⟩
    cases X with
    | original => rfl
    | inScratch s => rfl
    | inScratchOverwritten s => rfl
    | swapped => exact absurd rfl hne
  · obtain ⟨b'', ops'', hl, hg, _, _⟩ :=
      swapPageLoopOps_spec L p sIdx b f X hX hsp
    exact ⟨b'', ops'', hl, hg⟩

/-- Witness for C7 at the concrete configuration, starting from
`Original`. -/
theorem swap_page_progress_witness :
    (∃ b' ops, swapStepOps L1 0 0 bC1 fC1 = some (b', ops) ∧
      getPageState b' 0 = some (.inScratch 2) ∧ rank (.inScratch 2) + 1 = 3) ∧
    (∃ b'' ops'', swapPageLoopOps L1 0 0 3 bC1 fC1 = some (b'', ops'') ∧
      getPageState b'' 0 = some .swapped) := by
  have h := swap_page_progress L1 0 0 bC1 fC1 .original (by decide)
    (by decide) (by norm_num [L1])
  simpa [nextPS, rank, L1] using h

/-- C9 (implicit). Frame effect of `set_page_state`: only the three words
of page `p`'s triple change; the CRC word, the goal word, the reserved
words, validity, and every other page's state are untouched. -/
theorem set_page_state_frame (b : Buffer) (p : Nat) (st : PageState)
    (hp : p < 256) :
    (∀ i, i ≠ 256 + p → i ≠ 512 + p → i ≠ 768 + p →
      setPageState b p st i = b i) ∧
    setPageState b p st 0 = b 0 ∧ setPageState b p st 1 = b 1 ∧
    (∀ i, 2 ≤ i → i < 256 → setPageState b p st i = b i) ∧
    (IsValid (setPageState b p st) ↔ IsValid b) ∧
    (∀ q, q < 256 → q ≠ p →
      getPageState (setPageState b p st) q = getPageState b q) :=
  ⟨fun i h1 h2 h3 => setPageState_other b p st i h1 h2 h3,
    setPageState_other b p st 0 (by omega) (by omega) (by omega),
    setPageState_other b p st 1 (by omega) (by omega) (by omega),
    fun i hi1 hi2 => setPageState_other b p st i (by omega) (by omega) (by omega),
    isValid_setPageState b p st hp,
    fun q hq hne => getPageState_setPageState_other b p st q hp hq hne⟩

/-- Witness for C9 at a concrete buffer. -/
theorem set_page_state_frame_witness :
    getPageState (setPageState bC1 3 .swapped) 5 = getPageState bC1 5 :=
  (set_page_state_frame bC1 3 .swapped (by norm_num)).2.2.2.2.2 5
    (by norm_num) (by norm_num)

/-- C4 (amended). Encoding round-trip: `set_page_state` followed by
`get_page_state` returns the state that was set, for every page index and
every scratch page index `s` that fits in a `u32`, is not `VALID_WORD`
and is not the erased word 0xFFFF_FFFF. -/
theorem page_state_roundtrip (b : Buffer) (p s : Nat) (h32 : s < 2 ^ 32)
    (hnv : s ≠ VALID_WORD) (hnf : s ≠ 0xFFFFFFFF) :
    getPageState (setPageState b p .original) p = some .original ∧
    getPageState (setPageState b p (.inScratch s)) p = some (.inScratch s) ∧
    getPageState (setPageState b p (.inScratchOverwritten s)) p
      = some (.inScratchOverwritten s) ∧
    getPageState (setPageState b p .swapped) p = some .swapped :=
  ⟨get_setPageState_original b p, get_setPageState_inScratch b p s hnf,
    get_setPageState_overwritten b p s, get_setPageState_swapped b p⟩

/-- Counterexample to C4 as stated: the scratch index 0xFFFF_FFFF fits in a
`u32` and differs from `VALID_WORD`, yet `InScratch { 0xFFFF_FFFF }` reads
back as `Original`. -/
theorem page_state_roundtrip_counterexample :
    (0xFFFFFFFF : Nat) < 2 ^ 32 ∧ (0xFFFFFFFF : Nat) ≠ VALID_WORD ∧
    getPageState (setPageState (fun _ => 0) 0 (.inScratch 0xFFFFFFFF)) 0
      = some .original ∧
    PageState.original ≠ .inScratch 0xFFFFFFFF := by
  decide

/-- Witness for C4 (amended) at a concrete buffer and scratch index. -/
theorem page_state_roundtrip_witness :
    getPageState (setPageState (fun _ => 0) 0 (.inScratch 2)) 0
      = some (.inScratch 2) :=
  (page_state_roundtrip (fun _ => 0) 0 2 (by norm_num)
    (by norm_num [VALID_WORD]) (by norm_num)).2.1

/-- C8. Goal decoding: word[1] decodes to `JumpToApplication` for 0 and
0xFFFF_FFFF, to the four other goals for 1..4, and panics (`none`) for
every other value. -/
theorem goal_decode (b : Buffer) :
    (goalOf b = some .jumpToApplication ↔ b 1 = 0 ∨ b 1 = 0xFFFFFFFF) ∧
    (goalOf b = some .startSwap ↔ b 1 = 1) ∧
    (goalOf b = some .finishSwap ↔ b 1 = 2) ∧
    (goalOf b = some .startTestSwap ↔ b 1 = 3) ∧
    (goalOf b = some .finishTestSwap ↔ b 1 = 4) ∧
    (goalOf b = none ↔
      ¬(b 1 = 0 ∨ b 1 = 1 ∨ b 1 = 2 ∨ b 1 = 3 ∨ b 1 = 4 ∨
        b 1 = 0xFFFFFFFF)) := by
  unfold goalOf goalFromPrimitive
  split_ifs with h1 h2 h3 h4 h5 <;>
    refine ⟨?_, ?_, ?_, ?_, ?_, ?_⟩ <;> simp_all <;> omega

set_option maxRecDepth 100000 in
/-- C10. `set_valid(false)` writes the fixed word 0xFFFF_FFFF into the CRC
slot; for the exhibited buffer, whose words [1..256) have CRC-32/MPEG-2
exactly 0xFFFF_FFFF, `is_valid()` still holds immediately afterwards, so
invalidation is not guaranteed for all buffer contents. -/
theorem set_valid_false_not_invalidating :
    (∀ b : Buffer, setValid b false 0 = 0xFFFFFFFF) ∧
    calcCrc bCrcFF = 0xFFFFFFFF ∧
    IsValid (setValid bCrcFF false) := by
  refine ⟨fun b => ?_, by decide, by decide⟩
  unfold setValid
  rw [upd_self]
  rfl

/-- C2 (amended). Burn-store monotonicity: when the state mirror in flash
is in sync with the RAM buffer, every word write emitted by the
`burn_store` of the transitions `Original → InScratch{s}` and
`InScratch{s} → InScratchOverwritten{s}` satisfies
`new AND old = new` (only 1→0 bit changes); for
`InScratchOverwritten{s} → Swapped` this holds for every written word
except the `cached[p]` word (index 256+p), where `set_page_state` writes
`VALID_WORD` over the scratch index `s`. -/
theorem burn_store_monotone (f : Flash) (base : Nat) (b : Buffer) (p s : Nat)
    (hp : p < 256) (hsync : ∀ j, j < 1024 → f (base + j) = b j)
    (hs : s < 2 ^ 32) :
    (getPageState b p = some .original →
      ∀ a v, FlashOp.write a v ∈
          programOps f base (setPageState b p (.inScratch s)) →
        v &&& f a = v) ∧
    (getPageState b p = some (.inScratch s) →
      ∀ a v, FlashOp.write a v ∈
          programOps f base (setPageState b p (.inScratchOverwritten s)) →
        v &&& f a = v) ∧
    (getPageState b p = some (.inScratchOverwritten s) →
      ∀ a v, FlashOp.write a v ∈
          programOps f base (setPageState b p .swapped) →
        a ≠ base + (256 + p) → v &&& f a = v) := by
  have hVlt : (VALID_WORD : Nat) < 2 ^ 32 := by norm_num [VALID_WORD]
  refine ⟨?_, ?_, ?_⟩
  · intro hst a v hmem
    obtain ⟨hc, hcp, hf⟩ := getPageState_original_inv hst
    obtain ⟨j, hj, heq, hdiff⟩ := programOps_mem_inv hmem
    injection heq with ha hv
    subst ha; subst hv
    by_cases h1 : j = 256 + p
    · subst h1
      rw [setPageState_cached]
      rw [hsync _ hj, hc, Nat.land_comm]
      exact and_mask32 hs
    · by_cases h2 : j = 512 + p
      · exact absurd (by rw [hsync _ hj, h2, hcp, setPageState_copied]; rfl) hdiff
      · by_cases h3 : j = 768 + p
        · exact absurd (by rw [hsync _ hj, h3, hf, setPageState_finished]; rfl) hdiff
        · exact absurd
            (by rw [hsync _ hj, setPageState_other _ _ _ _ h1 h2 h3]) hdiff
  · intro hst a v hmem
    obtain ⟨hc, hsne, hcp, hf⟩ := getPageState_inScratch_inv hst
    obtain ⟨j, hj, heq, hdiff⟩ := programOps_mem_inv hmem
    injection heq with ha hv
    subst ha; subst hv
    by_cases h1 : j = 256 + p
    · exact absurd (by rw [hsync _ hj, h1, hc, setPageState_cached]; rfl) hdiff
    · by_cases h2 : j = 512 + p
      · subst h2
        rw [setPageState_copied]
        rw [hsync _ hj, hcp, Nat.land_comm]
        exact and_mask32 hVlt
      · by_cases h3 : j = 768 + p
        · exact absurd (by rw [hsync _ hj, h3, hf, setPageState_finished]; rfl) hdiff
        · exact absurd
            (by rw [hsync _ hj, setPageState_other _ _ _ _ h1 h2 h3]) hdiff
  · intro hst a v hmem hne
    obtain ⟨hc, hcp, hf⟩ := getPageState_overwritten_inv hst
    obtain ⟨j, hj, heq, hdiff⟩ := programOps_mem_inv hmem
    injection heq with ha hv
    subst ha; subst hv
    by_cases h1 : j = 256 + p
    · exact absurd (by rw [h1]) hne
    · by_cases h2 : j = 512 + p
      · exact absurd (by rw [hsync _ hj, h2, hcp, setPageState_copied]; rfl) hdiff
      · by_cases h3 : j = 768 + p
        · subst h3
          rw [setPageState_finished]
          rw [hsync _ hj, hf, Nat.land_comm]
          exact and_mask32 hVlt
        · exact absurd
            (by rw [hsync _ hj, setPageState_other _ _ _ _ h1 h2 h3]) hdiff

set_option maxRecDepth 100000 in
/-- Counterexample to C2 as stated: in the `InScratchOverwritten{2} →
Swapped` transition, `burn_store` writes `VALID_WORD` over the `cached[0]`
word whose current flash value is the scratch index 2, and
`VALID_WORD AND 2 ≠ VALID_WORD` — a 0→1 bit change. -/
theorem burn_store_monotone_counterexample :
    getPageState bC2 0 = some (.inScratchOverwritten 2) ∧
    FlashOp.write (3072 + 256) VALID_WORD ∈
      programOps fC2 3072 (setPageState bC2 0 .swapped) ∧
    VALID_WORD &&& fC2 (3072 + 256) ≠ VALID_WORD := by
  decide

set_option maxRecDepth 100000 in
/-- Witness for C2 (amended): the `finished[0]` write of the final
transition and the `cached[0]` write of the first transition are both
1→0-only. -/
theorem burn_store_monotone_witness :
    VALID_WORD &&& fC2 (3072 + 768) = VALID_WORD ∧
    (2 : Nat) &&& fErased (3072 + 256) = 2 :=
  ⟨(burn_store_monotone fC2 3072 bC2 0 2 (by norm_num) (by decide)
      (by norm_num)).2.2 (by decide) (3072 + 768) VALID_WORD (by decide)
      (by decide),
    (burn_store_monotone fErased 3072 (fun _ => 0xFFFFFFFF) 0 2 (by norm_num)
      (by decide) (by norm_num)).1 (by decide) (3072 + 256) 2 (by decide)⟩

/-! ## The handoff walker after a candidate is recorded -/

theorem walkGo_cons (f : Flash) (lo hi a : Nat) (rest : List Nat)
    (cand : Option Nat) (found : Bool) :
    walkGo f lo hi (a :: rest) cand found =
      (if f (a / 4) = 0xFFFFFFFF then walkGo f lo hi rest cand found
       else if f (a / 4) = 0 then walkGo f lo hi rest cand found
       else if 0x20000000 ≤ f (a / 4) ∧ f (a / 4) < 0x20040000 ∧ found = false
         then walkGo f lo hi rest (some a) true
       else if lo ≤ f (a / 4) ∧ f (a / 4) < hi ∧ found = true then cand
       else none) := rfl

theorem firstNonPad_cons (f : Flash) (a : Nat) (rest : List Nat) :
    firstNonPad f (a :: rest) =
      (if f (a / 4) = 0xFFFFFFFF then firstNonPad f rest
       else if f (a / 4) = 0 then firstNonPad f rest
       else some (f (a / 4))) := rfl

theorem walkGo_found_spec (f : Flash) (lo hi : Nat) :
    ∀ (rest : List Nat) (c : Nat),
      (firstNonPad f rest = none → walkGo f lo hi rest (some c) true = some c) ∧
      (∀ v, firstNonPad f rest = some v →
        walkGo f lo hi rest (some c) true =
          (if lo ≤ v ∧ v < hi then some c else none)) := by
  intro rest
  induction rest with
  | nil => exact fun c => ⟨fun _ => rfl, fun v hv => by cases hv⟩
  | cons a t ih =>
    intro c
    rw [walkGo_cons, firstNonPad_cons] at *
    by_cases hFF : f (a / 4) = 0xFFFFFFFF
    · rw [if_pos hFF, if_pos hFF]
      exact ih c
    · rw [if_neg hFF, if_neg hFF]
      by_cases h0 : f (a / 4) = 0
      · rw [if_pos h0, if_pos h0]
        exact ih c
      · rw [if_neg h0, if_neg h0,
          if_neg (fun h => Bool.noConfusion h.2.2)]
        constructor
        · intro h
          exact absurd h (by simp)
        · intro v hv
          have hveq : f (a / 4) = v := Option.some_inj.mp hv
          subst hveq
          by_cases hin : lo ≤ f (a / 4) ∧ f (a / 4) < hi
          · rw [if_pos ⟨hin.1, hin.2, rfl⟩, if_pos hin]
          · rw [if_neg (fun h => hin ⟨h.1, h.2.1⟩), if_neg hin]

/-- C3 (amended). After the walker records a candidate vector-table base,
subsequent erased (0xFFFF_FFFF) and zero words are skipped, not fatal: the
handoff jumps to the candidate if the first later non-padding word lies
inside slot A, or if the scan ends with no further non-padding word; a
later non-padding word outside slot A abandons the walk (panic).  The
candidate is never replaced once recorded. -/
theorem walker_after_candidate (f : Flash) (lo hi : Nat) (rest : List Nat)
    (c : Nat) :
    (firstNonPad f rest = none → walkGo f lo hi rest (some c) true = some c) ∧
    (∀ v, firstNonPad f rest = some v →
      walkGo f lo hi rest (some c) true =
        (if lo ≤ v ∧ v < hi then some c else none)) ∧
    (walkGo f lo hi rest (some c) true = some c ∨
      walkGo f lo hi rest (some c) true = none) := by
  obtain ⟨h1, h2⟩ := walkGo_found_spec f lo hi rest c
  refine ⟨h1, h2, ?_⟩
  rcases hfp : firstNonPad f rest with _ | v
  · exact Or.inl (h1 hfp)
  · rw [h2 v hfp]
    split_ifs <;> [exact Or.inl rfl; exact Or.inr rfl]

set_option maxRecDepth 100000 in
/-- Counterexample to C3 as stated: with slot A = [0x9000, 0xA000) holding
(stack pointer, erased word, reset vector), the word immediately after the
candidate is 0xFFFF_FFFF — not an address inside slot A — yet the handoff
jumps to the candidate instead of panicking; and a slot whose only
non-padding word is a final stack pointer also jumps (runs off the end)
instead of panicking. -/
theorem walker_counterexample :
    jumpToApp fC3 0x9000 0xA000 = some 0x9000 ∧
    fC3 ((0x9000 + 4) / 4) = 0xFFFFFFFF ∧
    ¬ (0x9000 ≤ fC3 ((0x9000 + 4) / 4) ∧ fC3 ((0x9000 + 4) / 4) < 0xA000) ∧
    jumpToApp fC3b 0x9000 0xA000 = some 0x9FFC := by
  decide

/-- Witness for C3 (amended), exercising both the skip-then-confirm path
and the scan-runs-out path. -/
theorem walker_after_candidate_witness :
    walkGo fC3 0x9000 0xA000 [0x9004, 0x9008] (some 0x9000) true
      = some 0x9000 ∧
    walkGo fErased 0x9000 0xA000 [0x9004] (some 0x9000) true
      = some 0x9000 := by
  constructor
  · have h := (walker_after_candidate fC3 0x9000 0xA000 [0x9004, 0x9008]
      0x9000).2.1 0x9008 (by decide)
    rw [h]
    norm_num
  · exact (walker_after_candidate fErased 0x9000 0xA000 [0x9004]
      0x9000).1 (by decide)

/-- C5. Load fallback: `load` returns the primary mirror whenever its
stored CRC word matches the computed CRC of words [1..256), and the backup
mirror otherwise; if the returned buffer also fails the CRC check, the
dispatcher jumps to the application with the flash untouched (no swap, no
write). -/
theorem load_fallback_and_dispatch (L : Layout) (f : Flash) :
    (IsValid (pageRead f L.stateStart) →
      ∀ i, load f L.stateStart i = pageRead f L.stateStart i) ∧
    (¬ IsValid (pageRead f L.stateStart) →
      ∀ i, load f L.stateStart i = pageRead f (L.stateStart + 1) i) ∧
    (¬ IsValid (load f L.stateStart) →
      runMain L f = some (.jumpToApplication, f)) := by
  refine ⟨?_, ?_, ?_⟩
  · intro h i
    unfold load
    rw [if_pos h]
  · intro h i
    unfold load
    rw [if_neg h]
  · intro h
    unfold runMain
    rw [if_neg h]

set_option maxRecDepth 100000 in
/-- Witness for C5: a flash with a CRC-valid primary mirror loads the
primary; a fully erased flash fails both mirrors, loads the backup, and
the dispatcher hands off with the flash unchanged. -/
theorem load_fallback_and_dispatch_witness :
    (∀ i, load fC5 L1.stateStart i = pageRead fC5 L1.stateStart i) ∧
    (∀ i, load fErased L1.stateStart i = pageRead fErased (L1.stateStart + 1) i) ∧
    runMain L1 fErased = some (.jumpToApplication, fErased) :=
  ⟨(load_fallback_and_dispatch L1 fC5).1 (by decide),
    (load_fallback_and_dispatch L1 fErased).2.1 (by decide),
    (load_fallback_and_dispatch L1 fErased).2.2 (by decide)⟩

set_option maxRecDepth 1000000 in
set_option maxHeartbeats 8000000 in
/-- C1 (code bug). Crash-resumability fails: on the concrete one-page
configuration, run the swap engine's own operation trace and interrupt it
right after its 11th atomic flash operation — the write of the `cached[0]`
state word (word address 3328 = state mirror 0 + 256) during the
`burn_store` that publishes `Swapped`, before the `finished[0]` word is
written.  The next boot then loads a CRC-valid state (so the
"both mirrors fail" escape of the claim does not apply) and decodes
page 0 as `InScratchOverwritten { scratch_page: 0 }`: the NOR-flash AND of
the old value 2 with `VALID_WORD`.  Page 0 is the bootloader's own page,
not a scratch page, and does not hold the original slot-A image, so the
flash contents prescribed for the decoded state do not hold: a resumed
swap would copy from an unrelated page and lose the original image. -/
theorem crash_resumability_counterexample :
    opsC1.take 11 =
      [.erase 2, .write 2048 0xA0A0A0A0, .write 3328 2, .write 4352 2,
       .erase 5, .write 5120 0xB0B0B0B0, .write 3584 VALID_WORD,
       .write 4608 VALID_WORD, .erase 6, .write 6144 0xA0A0A0A0,
       .write 3328 VALID_WORD] ∧
    IsValid (pageRead fCrash L1.stateStart) ∧
    getPageState (load fCrash L1.stateStart) 0
      = some (.inScratchOverwritten 0) ∧
    ¬ specPageConsistent fCrash L1 0 origA origB (.inScratchOverwritten 0) ∧
    ¬ (L1.scratchStart ≤ 0 ∧ 0 < L1.scratchStart + L1.scratchLen) := by
  decide

end Boot
